import Mathlib

/-!
Verification development for a turn-based Monopoly simulator.

The source is a single Python module.  Its mutable object graph is embedded
by explicit state passing:

* `Property` objects are stored in the board catalog (a position-keyed
  association list mirroring the Python `dict`, whose lookups return the
  first matching key and whose updates replace the first matching entry —
  identical to `dict` semantics because catalog keys are unique).
* Python code aliases `Property` objects between the board catalog and the
  players' holdings lists; here a player's holdings are the board positions
  of the owned properties, and every read goes through the catalog, which is
  the unique source of truth for the mutable `houses` field.  This is
  faithful because every `Property` object in the program originates from
  `_create_board` and carries its dict key in its `position` field.
* Machine integers are `Int` (Python ints are unbounded, so no wraparound
  modelling is needed); Python float arithmetic that only feeds comparisons
  against uniform random draws is modelled over `ℚ`.
* Fallible list indexing (`IndexError`) is `Option`-valued where a claim
  depends on it (`Property.current_rent`); engine paths that the program
  can only reach with in-range indices use total variants with defaults,
  with comments at each such spot.
* All of Python's `random` calls are modelled by an explicit oracle `RNG`
  holding one stream per kind of draw together with a cursor.
-/

/-- Python `dict` lookup `d.get(k)`: first entry with the given key. -/
def listLookup (k : Nat) : List (Nat × α) → Option α
  | [] => none
  | (k', v) :: rest => if k' = k then some v else listLookup k rest

/-- Python `dict` store `d[k] = v`: replace the first entry with the key,
else append at the end (preserving dict iteration order). -/
def listUpdate (k : Nat) (v : α) : List (Nat × α) → List (Nat × α)
  | [] => [(k, v)]
  | (k', v') :: rest =>
      if k' = k then (k, v) :: rest else (k', v') :: listUpdate k v rest

theorem listLookup_listUpdate_self (k : Nat) (v : α) :
    ∀ l : List (Nat × α), listLookup k (listUpdate k v l) = some v := by
  intro l
  induction l with
  | nil => simp [listUpdate, listLookup]
  | cons hd tl ih =>
      obtain ⟨k', v'⟩ := hd
      by_cases h : k' = k <;> simp [listUpdate, listLookup, h, ih]

theorem listLookup_listUpdate_ne (k j : Nat) (v : α) (hkj : k ≠ j) :
    ∀ l : List (Nat × α), listLookup j (listUpdate k v l) = listLookup j l := by
  intro l
  induction l with
  | nil => simp [listUpdate, listLookup, hkj]
  | cons hd tl ih =>
      obtain ⟨k', v'⟩ := hd
      by_cases h : k' = k
      · subst h; simp [listUpdate, listLookup, hkj]
      · simp [listUpdate, listLookup, h, ih]

inductive PropertyType where
  | street
  | railroad
  | utility
  | special
deriving DecidableEq, Repr

inductive BuyingStrategy where
  | random
  | color_focused
  | conservative
  | aggressive
  | house_hoarder
deriving DecidableEq, Repr

/-- `Property` dataclass.  `rent` is `[base, 1 house, 2, 3, 4, hotel]` for
streets and a single entry for railroads/utilities; `houses` is 0–4, or 5
for a hotel.  (`__post_init__` only rewrites a zero `mortgage_value`, and
every catalog entry passes a nonzero one, so it is not modelled.) -/
structure Property where
  name : String
  position : Nat
  price : Int
  rent : List Int
  color_group : String
  property_type : PropertyType
  mortgage_value : Int
  house_cost : Int := 0
  houses : Nat := 0
deriving DecidableEq, Repr

/-- `Property.current_rent`.  Python indexes `self.rent[...]` directly and
raises `IndexError` when the schedule is too short; the partiality is made
explicit with `Option`. -/
def Property.current_rent (p : Property) : Option Int :=
  if p.houses = 0 then p.rent.get? 0
  else if p.houses ≤ 4 then p.rent.get? p.houses
  else if 5 < p.rent.length then p.rent.get? 5
  else (p.rent.get? 4).map (· * 2)

/-- Total variant of `current_rent` used inside the turn engine, where the
program only ever evaluates it on catalog streets (6-entry schedules), so
the `Option` is always `some`; out-of-range reads default to 0. -/
def Property.current_rent_val (p : Property) : Int :=
  p.current_rent.getD 0

structure Player where
  name : String
  strategy : BuyingStrategy
  preferred_colors : List String
  money : Int := 1500
  position : Nat := 0
  properties : List Nat := []
  get_out_of_jail_cards : Nat := 0
  in_jail : Bool := false
  jail_turns : Nat := 0
  is_bankrupt : Bool := false
deriving DecidableEq, Repr

def mkPlayer (name : String) (strategy : BuyingStrategy)
    (preferred_colors : List String) : Player :=
  { name := name, strategy := strategy, preferred_colors := preferred_colors }

/-- The `Property` objects a player's holdings reference, read through the
catalog (the holdings store board positions of catalog entries). -/
def holdingsProps (catalog : List (Nat × Property)) (pl : Player) : List Property :=
  pl.properties.filterMap (fun pos => listLookup pos catalog)

/-- `Player.pay`: all-or-nothing debit. -/
def Player.pay (pl : Player) (amount : Int) : Player × Bool :=
  if amount ≤ pl.money then ({ pl with money := pl.money - amount }, true)
  else (pl, false)

def Player.receive (pl : Player) (amount : Int) : Player :=
  { pl with money := pl.money + amount }

/-- `Player.move`: advance modulo the board size, crediting 200 when the
old position plus the steps reaches or passes GO.  Returns the passed-GO
flag exactly as the source does (its callers discard it). -/
def Player.move (pl : Player) (steps : Nat) (board_size : Nat := 40) :
    Player × Bool :=
  let old := pl.position
  let moved := { pl with position := (pl.position + steps) % board_size }
  if board_size ≤ old + steps then
    ({ moved with money := moved.money + 200 }, true)
  else (moved, false)

/-- `Player.owns_color_group`: the player's holdings in the color group are
counted without a type filter, while the catalog side counts only streets
(so railroads and utilities never form color groups). -/
def Player.owns_color_group (pl : Player) (color_group : String)
    (all_properties : List (Nat × Property)) : Bool :=
  let group_properties := (all_properties.map Prod.snd).filter
    (fun p => p.color_group == color_group && p.property_type == PropertyType.street)
  let owned_in_group := (holdingsProps all_properties pl).filter
    (fun p => p.color_group == color_group)
  owned_in_group.length == group_properties.length

def Player.has_monopoly_in_color (pl : Player) (color_group : String)
    (all_properties : List (Nat × Property)) : Bool :=
  pl.owns_color_group color_group all_properties

/-- `Player.get_current_target_color`: first preferred color not yet
monopolized (`none` when the list is empty or all are completed). -/
def Player.get_current_target_color (pl : Player)
    (all_properties : List (Nat × Property)) : Option String :=
  pl.preferred_colors.find? (fun c => !(pl.owns_color_group c all_properties))

def natListMin (x : Nat) (xs : List Nat) : Nat := xs.foldl min x

def natListMax (x : Nat) (xs : List Nat) : Nat := xs.foldl max x

structure MonopolyBoard where
  properties : List (Nat × Property)
  property_owners : List (Nat × Nat) := []
  houses_remaining : Int := 32
  hotels_remaining : Int := 12
deriving DecidableEq, Repr

/-- `MonopolyBoard.can_build_houses`: full-group ownership plus the even
development bound `max - min ≤ 1` over the player's holdings in the group.
Python raises `ValueError` on `min([])`; the program only reaches this with
an owned, hence nonempty, group, and the empty case is mapped to `false`. -/
def can_build_houses (b : MonopolyBoard) (color_group : String) (pl : Player) : Bool :=
  if !(pl.owns_color_group color_group b.properties) then false
  else
    match (holdingsProps b.properties pl).filter
        (fun p => p.color_group == color_group) with
    | [] => false
    | p :: ps =>
        let hs := (p :: ps).map Property.houses
        natListMax (hs.headI) hs.tail - natListMin (hs.headI) hs.tail ≤ 1

/-- House counts of the player's holdings within one color group (the list
`can_build_houses` takes its min and max over). -/
def groupHouseCounts (b : MonopolyBoard) (pl : Player) (color_group : String) :
    List Nat :=
  ((holdingsProps b.properties pl).filter
    (fun p => p.color_group == color_group)).map Property.houses

/-- `MonopolyBoard.build_house`.  The Python method receives the aliased
`Property` object and mutates it in place; here the property is addressed
by its board position (the `none` branch is unreachable in the program,
where every passed object is a catalog entry). -/
def build_house (b : MonopolyBoard) (pos : Nat) (pl : Player) :
    MonopolyBoard × Player × Bool :=
  match listLookup pos b.properties with
  | none => (b, pl, false)
  | some prop =>
      if !(can_build_houses b prop.color_group pl) then (b, pl, false)
      else if 4 ≤ prop.houses then (b, pl, false)
      else if b.houses_remaining ≤ 0 then (b, pl, false)
      else
        let paid := pl.pay prop.house_cost
        if paid.2 then
          ({ b with
              properties := listUpdate pos { prop with houses := prop.houses + 1 }
                b.properties,
              houses_remaining := b.houses_remaining - 1 },
            paid.1, true)
        else (b, paid.1, false)

/-- `MonopolyBoard.build_hotel`. -/
def build_hotel (b : MonopolyBoard) (pos : Nat) (pl : Player) :
    MonopolyBoard × Player × Bool :=
  match listLookup pos b.properties with
  | none => (b, pl, false)
  | some prop =>
      if prop.houses ≠ 4 then (b, pl, false)
      else if b.hotels_remaining ≤ 0 then (b, pl, false)
      else
        let paid := pl.pay prop.house_cost
        if paid.2 then
          ({ b with
              properties := listUpdate pos { prop with houses := 5 } b.properties,
              houses_remaining := b.houses_remaining + 4,
              hotels_remaining := b.hotels_remaining - 1 },
            paid.1, true)
        else (b, paid.1, false)

/-- The board catalog built by `_create_board`, in dict insertion order. -/
def initialCatalog : List (Nat × Property) :=
  [ (1, ⟨"Mediterranean Avenue", 1, 60, [2, 10, 30, 90, 160, 250], "brown", .street, 30, 50, 0⟩),
    (3, ⟨"Baltic Avenue", 3, 60, [4, 20, 60, 180, 320, 450], "brown", .street, 30, 50, 0⟩),
    (5, ⟨"Reading Railroad", 5, 200, [25], "railroad", .railroad, 100, 0, 0⟩),
    (6, ⟨"Oriental Avenue", 6, 100, [6, 30, 90, 270, 400, 550], "light_blue", .street, 50, 50, 0⟩),
    (8, ⟨"Vermont Avenue", 8, 100, [6, 30, 90, 270, 400, 550], "light_blue", .street, 50, 50, 0⟩),
    (9, ⟨"Connecticut Avenue", 9, 120, [8, 40, 100, 300, 450, 600], "light_blue", .street, 60, 50, 0⟩),
    (11, ⟨"St. Charles Place", 11, 140, [10, 50, 150, 450, 625, 750], "pink", .street, 70, 100, 0⟩),
    (12, ⟨"Electric Company", 12, 150, [0], "utility", .utility, 75, 0, 0⟩),
    (13, ⟨"States Avenue", 13, 140, [10, 50, 150, 450, 625, 750], "pink", .street, 70, 100, 0⟩),
    (14, ⟨"Virginia Avenue", 14, 160, [12, 60, 180, 500, 700, 900], "pink", .street, 80, 100, 0⟩),
    (15, ⟨"Pennsylvania Railroad", 15, 200, [25], "railroad", .railroad, 100, 0, 0⟩),
    (16, ⟨"St. James Place", 16, 180, [14, 70, 200, 550, 750, 950], "orange", .street, 90, 100, 0⟩),
    (18, ⟨"Tennessee Avenue", 18, 180, [14, 70, 200, 550, 750, 950], "orange", .street, 90, 100, 0⟩),
    (19, ⟨"New York Avenue", 19, 200, [16, 80, 220, 600, 800, 1000], "orange", .street, 100, 100, 0⟩),
    (21, ⟨"Kentucky Avenue", 21, 220, [18, 90, 250, 700, 875, 1050], "red", .street, 110, 150, 0⟩),
    (23, ⟨"Indiana Avenue", 23, 220, [18, 90, 250, 700, 875, 1050], "red", .street, 110, 150, 0⟩),
    (24, ⟨"Illinois Avenue", 24, 240, [20, 100, 300, 750, 925, 1100], "red", .street, 120, 150, 0⟩),
    (25, ⟨"B&O Railroad", 25, 200, [25], "railroad", .railroad, 100, 0, 0⟩),
    (26, ⟨"Atlantic Avenue", 26, 260, [22, 110, 330, 800, 975, 1150], "yellow", .street, 130, 150, 0⟩),
    (27, ⟨"Ventnor Avenue", 27, 260, [22, 110, 330, 800, 975, 1150], "yellow", .street, 130, 150, 0⟩),
    (28, ⟨"Water Works", 28, 150, [0], "utility", .utility, 75, 0, 0⟩),
    (29, ⟨"Marvin Gardens", 29, 280, [24, 120, 360, 850, 1025, 1200], "yellow", .street, 140, 150, 0⟩),
    (31, ⟨"Pacific Avenue", 31, 300, [26, 130, 390, 900, 1100, 1275], "green", .street, 150, 200, 0⟩),
    (32, ⟨"North Carolina Avenue", 32, 300, [26, 130, 390, 900, 1100, 1275], "green", .street, 150, 200, 0⟩),
    (34, ⟨"Pennsylvania Avenue", 34, 320, [28, 150, 450, 1000, 1200, 1400], "green", .street, 160, 200, 0⟩),
    (35, ⟨"Short Line Railroad", 35, 200, [25], "railroad", .railroad, 100, 0, 0⟩),
    (37, ⟨"Park Place", 37, 350, [35, 175, 500, 1100, 1300, 1500], "dark_blue", .street, 175, 200, 0⟩),
    (39, ⟨"Boardwalk", 39, 400, [50, 200, 600, 1400, 1700, 2000], "dark_blue", .street, 200, 200, 0⟩) ]

/-- `MonopolyBoard.__init__`. -/
def mkBoard : MonopolyBoard :=
  { properties := initialCatalog }

def get_property_at_position (b : MonopolyBoard) (position : Nat) : Option Property :=
  listLookup position b.properties

def is_property_owned (b : MonopolyBoard) (position : Nat) : Bool :=
  (listLookup position b.property_owners).isSome

def get_property_owner (b : MonopolyBoard) (position : Nat) : Option Nat :=
  listLookup position b.property_owners

/-- `MonopolyBoard.buy_property`; the owning player is recorded by roster
index (Python stores the object reference). -/
def buy_property (b : MonopolyBoard) (position : Nat) (pid : Nat) (pl : Player) :
    MonopolyBoard × Player × Bool :=
  match get_property_at_position b position with
  | none => (b, pl, false)
  | some prop =>
      if is_property_owned b position then (b, pl, false)
      else
        let paid := pl.pay prop.price
        if paid.2 then
          ({ b with property_owners := listUpdate position pid b.property_owners },
            { paid.1 with properties := paid.1.properties ++ [position] }, true)
        else (b, paid.1, false)

/-- Oracle for Python's global `random` stream, split per kind of draw:
`dice` models `random.randint(1, 6)`, `rand` models `random.random()`
(a rational stands in for the float, which only ever feeds comparisons),
`choice` models `random.choice` over the 4-card decks (taken mod 4), and
`utilDice` models the `random.randint(2, 12)` utility-rent roll.  Each
stream is consumed left to right through its cursor. -/
structure RNG where
  dice : Nat → Nat
  diceIdx : Nat
  rand : Nat → ℚ
  randIdx : Nat
  choice : Nat → Nat
  choiceIdx : Nat
  utilDice : Nat → Nat
  utilIdx : Nat

def RNG.nextDie (r : RNG) : Nat × RNG :=
  (r.dice r.diceIdx, { r with diceIdx := r.diceIdx + 1 })

def RNG.nextRand (r : RNG) : ℚ × RNG :=
  (r.rand r.randIdx, { r with randIdx := r.randIdx + 1 })

def RNG.nextChoice (r : RNG) : Nat × RNG :=
  (r.choice r.choiceIdx, { r with choiceIdx := r.choiceIdx + 1 })

def RNG.nextUtil (r : RNG) : Nat × RNG :=
  (r.utilDice r.utilIdx, { r with utilIdx := r.utilIdx + 1 })

/-- `Player.calculate_rent` (the owner's method).  The railroad branch's
`2 ** (railroad_count - 1)` uses truncated subtraction: the program only
evaluates it when the owner holds the landed railroad, so the count is at
least 1 and Python's fractional `2 ** -1` is unreachable. -/
def calculate_rent (owner : Player) (prop : Property)
    (all_properties : List (Nat × Property)) (rng : RNG) : Int × RNG :=
  if prop.property_type = PropertyType.railroad then
    let railroad_count := ((holdingsProps all_properties owner).filter
      (fun p => p.property_type == PropertyType.railroad)).length
    (25 * 2 ^ (railroad_count - 1), rng)
  else if prop.property_type = PropertyType.utility then
    let utility_count := ((holdingsProps all_properties owner).filter
      (fun p => p.property_type == PropertyType.utility)).length
    let (dice_roll, rng) := rng.nextUtil
    ((dice_roll : Int) * (if utility_count = 2 then 10 else 4), rng)
  else
    if 0 < prop.houses then (prop.current_rent_val, rng)
    else
      let base_rent := prop.rent.getD 0 0
      if owner.owns_color_group prop.color_group all_properties then
        (base_rent * 2, rng)
      else (base_rent, rng)

/-- `Player.should_develop_property`: per-strategy cash gates; only the
RANDOM strategy consumes a uniform draw. -/
def should_develop_property (pl : Player) (rng : RNG) : Bool × RNG :=
  match pl.strategy with
  | .aggressive => (500 < pl.money, rng)
  | .conservative => (1000 < pl.money, rng)
  | .color_focused => (300 < pl.money, rng)
  | .house_hoarder => (200 < pl.money, rng)
  | .random =>
      let (r, rng) := rng.nextRand
      (decide (r < (0.3 : ℚ)) && decide (400 < pl.money), rng)

/-- Python `min(house_properties, key=lambda p: p.houses)`: first property
with the minimal house count. -/
def pyMinByHouses (best : Property) : List Property → Property
  | [] => best
  | p :: rest => pyMinByHouses (if p.houses < best.houses then p else best) rest

/-- The COLOR_FOCUSED nested loops: first candidate matching the earliest
preferred color that has any match. -/
def findPreferred (developable : List Property) : List String → Option Property
  | [] => none
  | c :: cs =>
      match developable.find? (fun p => p.color_group == c) with
      | some p => some p
      | none => findPreferred developable cs

/-- One step of the best-rent-increase-per-dollar scan; the float ratios
are computed over `ℚ`.  Properties at a hotel (5) fall through both
branches, as in the source. -/
def ratioStep (acc : Option Property × ℚ) (prop : Property) : Option Property × ℚ :=
  if prop.houses < 4 then
    let next_rent := prop.rent.getD (prop.houses + 1) 0
    let r : ℚ := ((next_rent - prop.current_rent_val : Int) : ℚ) / ((prop.house_cost : Int) : ℚ)
    if acc.2 < r then (some prop, r) else acc
  else if prop.houses = 4 then
    let hotel_rent := if 5 < prop.rent.length then prop.rent.getD 5 0
      else prop.rent.getD 4 0 * 2
    let r : ℚ := ((hotel_rent - prop.current_rent_val : Int) : ℚ) / ((prop.house_cost : Int) : ℚ)
    if acc.2 < r then (some prop, r) else acc
  else acc

/-- `Player.choose_property_to_develop`.  The final
`best_prop or developable_properties[0]` falls back to `head?`; the caller
only reaches it with a nonempty candidate list. -/
def choose_property_to_develop (pl : Player) (developable : List Property) :
    Option Property :=
  if pl.strategy = BuyingStrategy.house_hoarder then
    match developable.filter (fun p => p.houses < 4) with
    | [] => none
    | p :: ps => some (pyMinByHouses p ps)
  else
    let colorPick : Option Property :=
      if pl.strategy = BuyingStrategy.color_focused ∧ pl.preferred_colors ≠ [] then
        findPreferred developable pl.preferred_colors
      else none
    match colorPick with
    | some p => some p
    | none =>
        match (developable.foldl ratioStep (none, 0)).1 with
        | some best => some best
        | none => developable.head?

/-- `MonopolyBoard.get_developable_properties` groups the player's street
holdings by color in first-encounter order (Python dict insertion order). -/
def insertGroup (color : String) (p : Property) :
    List (String × List Property) → List (String × List Property)
  | [] => [(color, [p])]
  | (c, ps) :: rest =>
      if c == color then (c, ps ++ [p]) :: rest
      else (c, ps) :: insertGroup color p rest

def groupStreets (props : List Property) : List (String × List Property) :=
  props.foldl
    (fun acc p =>
      if p.property_type == PropertyType.street then insertGroup p.color_group p acc
      else acc)
    []

def get_developable_properties (b : MonopolyBoard) (pl : Player) : List Property :=
  (groupStreets (holdingsProps b.properties pl)).foldl
    (fun developable cg =>
      if pl.owns_color_group cg.1 b.properties then
        match cg.2 with
        | [] => developable
        | p :: ps =>
            let min_houses := natListMin p.houses (ps.map Property.houses)
            developable ++ (p :: ps).filter (fun prop =>
              (prop.houses == min_houses && prop.houses < 4) ||
              (prop.houses == 4 && 0 < b.hotels_remaining))
      else developable)
    []

structure MonopolyGame where
  board : MonopolyBoard
  players : List Player
  current_player_index : Nat := 0
  turn_count : Nat := 0
  max_turns : Nat := 1000
  game_over : Bool := false
  winner : Option Player := none
deriving Repr

/-- `MonopolyGame.__init__`. -/
def mkGame (player_configs : List (String × BuyingStrategy × List String))
    (max_turns : Nat := 1000) : MonopolyGame :=
  { board := mkBoard,
    players := player_configs.map (fun c => mkPlayer c.1 c.2.1 c.2.2),
    max_turns := max_turns }

def defaultPlayer : Player := mkPlayer "" BuyingStrategy.random []

/-- Read the roster entry the Python code accesses as `self.players[i]`
(always in range in the program; the default is never hit). -/
def getPlayerD (g : MonopolyGame) (i : Nat) : Player :=
  (g.players.get? i).getD defaultPlayer

def setPlayer (g : MonopolyGame) (i : Nat) (pl : Player) : MonopolyGame :=
  { g with players := g.players.set i pl }

/-- `MonopolyGame.should_buy_property`.  Probability thresholds are the
source's float expressions transcribed over `ℚ`. -/
def should_buy_property (g : MonopolyGame) (rng : RNG) (pl : Player)
    (prop : Property) : Bool × RNG :=
  if pl.money < prop.price then (false, rng)
  else
    match pl.strategy with
    | .random =>
        let (r, rng) := rng.nextRand
        (decide (r < (0.6 : ℚ)), rng)
    | .color_focused =>
        let owned_in_group := ((holdingsProps g.board.properties pl).filter
          (fun p => p.color_group == prop.color_group)).length
        let group_size := ((g.board.properties.map Prod.snd).filter
          (fun p => p.color_group == prop.color_group)).length
        if pl.preferred_colors = [] then
          let base_chance : ℚ :=
            if 0 < owned_in_group then
              0.4 + 0.3 * ((owned_in_group : ℚ) / (group_size : ℚ))
            else 0.4
          let (r, rng) := rng.nextRand
          (decide (r < base_chance), rng)
        else
          let current_target := pl.get_current_target_color g.board.properties
          let base_chance : ℚ :=
            match current_target with
            | none => 0.15
            | some target =>
                if prop.color_group = target then
                  if 0 < owned_in_group then
                    min 0.95 (0.85 + 0.1 * ((owned_in_group : ℚ) / (group_size : ℚ)))
                  else 0.85
                else if prop.color_group ∈ pl.preferred_colors then
                  let target_index := pl.preferred_colors.indexOf prop.color_group
                  max 0.1 (0.4 - (target_index : ℚ) * 0.1)
                else 0.1
          let (r, rng) := rng.nextRand
          (decide (r < base_chance), rng)
    | .conservative => (prop.price * 3 < pl.money, rng)
    | .aggressive => (prop.price + 100 < pl.money, rng)
    | .house_hoarder => (prop.price + 10 < pl.money, rng)

/-- `MonopolyGame.handle_property_landing` for player index `i`. -/
def handle_property_landing (g : MonopolyGame) (rng : RNG) (i : Nat)
    (position : Nat) : MonopolyGame × RNG :=
  match get_property_at_position g.board position with
  | none => (g, rng)
  | some prop =>
      if is_property_owned g.board position then
        match get_property_owner g.board position with
        | none => (g, rng)
        | some j =>
            let owner := getPlayerD g j
            if j ≠ i ∧ owner.is_bankrupt = false then
              let (rent, rng) := calculate_rent owner prop g.board.properties rng
              let player := getPlayerD g i
              let paid := player.pay rent
              if paid.2 then
                (setPlayer (setPlayer g i paid.1) j (owner.receive rent), rng)
              else
                (setPlayer g i { player with is_bankrupt := true }, rng)
            else (g, rng)
      else
        let player := getPlayerD g i
        let (buy, rng) := should_buy_property g rng player prop
        if buy then
          let r := buy_property g.board position i player
          ({ setPlayer g i r.2.1 with board := r.1 }, rng)
        else (g, rng)

def advance_to_go (pl : Player) : Player :=
  ({ pl with position := 0 }).receive 200

def send_to_jail (pl : Player) : Player :=
  { pl with position := 10, in_jail := true }

/-- `MonopolyGame.pay_all_players` walk: `j` is the roster index of the
head of the remaining list, `payerMoney` the payer's running balance; the
`break` leaves every later player untouched. -/
def payAllGo (amount : Int) (payerIdx : Nat) (payerMoney : Int) :
    List Player → Nat → List Player × Int
  | [], _ => ([], payerMoney)
  | q :: rest, j =>
      if j ≠ payerIdx ∧ q.is_bankrupt = false then
        if amount ≤ payerMoney then
          let r := payAllGo amount payerIdx (payerMoney - amount) rest (j + 1)
          (q.receive amount :: r.1, r.2)
        else (q :: rest, payerMoney)
      else
        let r := payAllGo amount payerIdx payerMoney rest (j + 1)
        (q :: r.1, r.2)

/-- `MonopolyGame.pay_all_players`: the payer's mutated balance is written
back to their roster slot (Python mutates the shared object in place). -/
def pay_all_players (g : MonopolyGame) (i : Nat) (amount : Int) : MonopolyGame :=
  let r := payAllGo amount i (getPlayerD g i).money g.players 0
  let g' := { g with players := r.1 }
  setPlayer g' i { getPlayerD g' i with money := r.2 }

/-- `MonopolyGame.draw_community_chest`: 4-card deck drawn uniformly. -/
def draw_community_chest (g : MonopolyGame) (rng : RNG) (i : Nat) :
    MonopolyGame × RNG :=
  let (c, rng) := rng.nextChoice
  let pl := getPlayerD g i
  match c % 4 with
  | 0 => (setPlayer g i (advance_to_go pl), rng)
  | 1 => (setPlayer g i (pl.receive 200), rng)
  | 2 => (setPlayer g i (pl.pay 100).1, rng)
  | _ => (setPlayer g i
      { pl with get_out_of_jail_cards := pl.get_out_of_jail_cards + 1 }, rng)

/-- `MonopolyGame.draw_chance`: 4-card deck drawn uniformly. -/
def draw_chance (g : MonopolyGame) (rng : RNG) (i : Nat) : MonopolyGame × RNG :=
  let (c, rng) := rng.nextChoice
  let pl := getPlayerD g i
  match c % 4 with
  | 0 => (setPlayer g i (advance_to_go pl), rng)
  | 1 => (setPlayer g i (send_to_jail pl), rng)
  | 2 => (pay_all_players g i 50, rng)
  | _ => (setPlayer g i (pl.receive 150), rng)

/-- `MonopolyGame.handle_special_spaces`. -/
def handle_special_spaces (g : MonopolyGame) (rng : RNG) (i : Nat)
    (position : Nat) : MonopolyGame × RNG :=
  if position = 0 then (g, rng)
  else if position = 10 then (g, rng)
  else if position = 20 then (g, rng)
  else if position = 30 then
    (setPlayer g i { getPlayerD g i with position := 10, in_jail := true }, rng)
  else if position = 2 ∨ position = 17 ∨ position = 33 then
    draw_community_chest g rng i
  else if position = 7 ∨ position = 22 ∨ position = 36 then
    draw_chance g rng i
  else if position = 4 then
    let paid := (getPlayerD g i).pay 200
    if paid.2 then (setPlayer g i paid.1, rng) else (g, rng)
  else if position = 38 then
    let paid := (getPlayerD g i).pay 100
    if paid.2 then (setPlayer g i paid.1, rng) else (g, rng)
  else (g, rng)

/-- `MonopolyGame.handle_development_phase` loop body, with the remaining
build budget (at most `max_developments_per_turn = 3` successful builds)
as fuel; every non-success path breaks out, as in the source. -/
def devLoop (i : Nat) : Nat → MonopolyGame → RNG → MonopolyGame × RNG
  | 0, g, rng => (g, rng)
  | fuel + 1, g, rng =>
      let player := getPlayerD g i
      let developable := get_developable_properties g.board player
      if developable.isEmpty then (g, rng)
      else
        let (dev, rng) := should_develop_property player rng
        if !dev then (g, rng)
        else
          match choose_property_to_develop player developable with
          | none => (g, rng)
          | some prop =>
              let r :=
                if prop.houses = 4 then build_hotel g.board prop.position player
                else build_house g.board prop.position player
              let g := { setPlayer g i r.2.1 with board := r.1 }
              if r.2.2 then devLoop i fuel g rng else (g, rng)

/-- `MonopolyGame.handle_development_phase`. -/
def handle_development_phase (g : MonopolyGame) (rng : RNG) (i : Nat) :
    MonopolyGame × RNG :=
  if (getPlayerD g i).is_bankrupt then (g, rng)
  else devLoop i 3 g rng

/-- Net worth used for turn-cap termination: cash plus listed prices of
owned properties. -/
def networth (catalog : List (Nat × Property)) (pl : Player) : Int :=
  pl.money + ((holdingsProps catalog pl).map Property.price).sum

/-- Python `max(lst, key=f)` scan: keeps the first maximal element. -/
def pyMaxGo (f : Player → Int) (best : Player) : List Player → Player
  | [] => best
  | p :: rest => pyMaxGo f (if f best < f p then p else best) rest

def pythonMax (f : Player → Int) : List Player → Option Player
  | [] => none
  | p :: rest => some (pyMaxGo f p rest)

/-- `MonopolyGame.next_player`: advance the roster pointer, bump the round
counter on wrap, then test the end conditions. -/
def next_player (g : MonopolyGame) : MonopolyGame :=
  let idx := (g.current_player_index + 1) % g.players.length
  let t := if idx = 0 then g.turn_count + 1 else g.turn_count
  let g : MonopolyGame := { g with current_player_index := idx, turn_count := t }
  let active : List Player := g.players.filter (fun p => !p.is_bankrupt)
  if active.length ≤ 1 then
    match active.head? with
    | some w => { g with game_over := true, winner := some w }
    | none => { g with game_over := true }
  else if g.max_turns ≤ t then
    { g with game_over := true,
             winner := pythonMax (networth g.board.properties) g.players }
  else g

/-- Movement aftermath shared by every path that leaves jail or was never
jailed: special spaces, property landing and development, each of the
latter two skipped once the player is bankrupt (source lines 518-525). -/
def movePhaseCore (g : MonopolyGame) (rng : RNG) (i : Nat) : MonopolyGame × RNG :=
  let sr := handle_special_spaces g rng i (getPlayerD g i).position
  let lr :=
    if (getPlayerD sr.1 i).is_bankrupt then sr
    else handle_property_landing sr.1 sr.2 i (getPlayerD sr.1 i).position
  if (getPlayerD lr.1 i).is_bankrupt then lr
  else handle_development_phase lr.1 lr.2 i

/-- Movement and the rest of a turn once jail is resolved (source lines
514-527): move, the shared aftermath, then `next_player`. -/
def movePhase (g : MonopolyGame) (rng : RNG) (i : Nat) (player : Player)
    (total_roll : Nat) : MonopolyGame × RNG :=
  let player := (player.move total_roll).1
  let g := setPlayer g i player
  let r := movePhaseCore g rng i
  (next_player r.1, r.2)

/-- The body of `MonopolyGame.play_turn` for a live (non-bankrupt) player:
the dice roll, jail resolution and — once out of jail — the move phase.
Factored out of `play_turn` so that the theorems can reason on the roster
entry directly. -/
def play_turn_body (g : MonopolyGame) (rng : RNG) (player : Player) :
    MonopolyGame × RNG :=
  let (d1, rng) := rng.nextDie
  let (d2, rng) := rng.nextDie
  let total_roll := d1 + d2
  let i := g.current_player_index
  if player.in_jail then
    if 0 < player.get_out_of_jail_cards then
      let pl := { player with
        get_out_of_jail_cards := player.get_out_of_jail_cards - 1,
        in_jail := false }
      movePhase g rng i pl total_roll
    else if d1 = d2 then
      let pl := { player with in_jail := false, jail_turns := 0 }
      movePhase g rng i pl total_roll
    else if 50 ≤ player.money then
      let pl := { player with
        money := player.money - 50, in_jail := false, jail_turns := 0 }
      movePhase g rng i pl total_roll
    else
      let player := { player with jail_turns := player.jail_turns + 1 }
      if 3 ≤ player.jail_turns then
        if 50 ≤ player.money then
          let pl := { player with
            money := player.money - 50, in_jail := false, jail_turns := 0 }
          movePhase g rng i pl total_roll
        else
          (next_player (setPlayer g i { player with is_bankrupt := true }),
            rng)
      else (next_player (setPlayer g i player), rng)
  else movePhase g rng i player total_roll

/-- `MonopolyGame.play_turn`.  The roster access `self.players[i]` is
always in range in the program; the `none` guard mirrors the would-be
`IndexError` by leaving the state unchanged. -/
def play_turn (g : MonopolyGame) (rng : RNG) : MonopolyGame × RNG :=
  if g.game_over then (g, rng)
  else
    match g.players.get? g.current_player_index with
    | none => (g, rng)
    | some player =>
        if player.is_bankrupt then (next_player g, rng)
        else play_turn_body g rng player

/-- `MonopolyGame.play_game` while-loop with explicit fuel; the theorems
below exhibit a fuel bound past which the loop has provably terminated
(the verbose reporting block has no effect on state and is omitted). -/
def playGameFuel : Nat → MonopolyGame → RNG → MonopolyGame × RNG
  | 0, g, rng => (g, rng)
  | fuel + 1, g, rng =>
      if g.game_over then (g, rng)
      else
        let (g, rng) := play_turn g rng
        playGameFuel fuel g rng

/-! ## Claim C1: even development and `build_house` -/

/-- Concrete state refuting C1 as stated: one player fully owns the brown
group with 1 house on Mediterranean Avenue (position 1) and 2 on Baltic
Avenue (position 3); the group spread is 1, so a build on the already
maximal Baltic Avenue is accepted, leaving spread 2. -/
def medAveC1 : Property :=
  ⟨"Mediterranean Avenue", 1, 60, [2, 10, 30, 90, 160, 250], "brown", .street, 30, 50, 1⟩

def balticAveC1 : Property :=
  ⟨"Baltic Avenue", 3, 60, [4, 20, 60, 180, 320, 450], "brown", .street, 30, 50, 2⟩

def boardC1 : MonopolyBoard :=
  { mkBoard with
      properties := listUpdate 3 balticAveC1 (listUpdate 1 medAveC1 initialCatalog),
      property_owners := [(1, 0), (3, 0)] }

def playerC1 : Player :=
  { mkPlayer "P" .random [] with money := 500, properties := [1, 3] }

/-- C1 fails on the code: `build_house` checks the even-development spread
only before the increment, so building on the group's maximal property
succeeds from spread 1 and leaves spread 2 (house counts `[1, 3]`), where
the source's own `can_build_houses` then reports `false`. -/
theorem C1_counterexample :
    (build_house boardC1 3 playerC1).2.2 = true ∧
    playerC1.owns_color_group "brown" (build_house boardC1 3 playerC1).1.properties = true ∧
    groupHouseCounts (build_house boardC1 3 playerC1).1 playerC1 "brown" = [1, 3] ∧
    can_build_houses (build_house boardC1 3 playerC1).1 "brown" playerC1 = false := by
  decide

/-- C1 amended: a successful `build_house` requires full ownership of the
color group and the even-development bound `max - min ≤ 1` over the group's
house counts at the time of the call (before the increment), not after it. -/
theorem C1_amended (b : MonopolyBoard) (pos : Nat) (pl : Player) (prop : Property)
    (hlk : listLookup pos b.properties = some prop)
    (hok : (build_house b pos pl).2.2 = true) :
    pl.owns_color_group prop.color_group b.properties = true ∧
    ∃ h t, groupHouseCounts b pl prop.color_group = h :: t ∧
      natListMax h t - natListMin h t ≤ 1 := by
  have hcb : can_build_houses b prop.color_group pl = true := by
    by_contra hc
    rw [Bool.not_eq_true] at hc
    simp [build_house, hlk, hc] at hok
  unfold can_build_houses at hcb
  cases howns : pl.owns_color_group prop.color_group b.properties with
  | false => rw [howns] at hcb; simp at hcb
  | true =>
      rw [howns] at hcb
      simp only [Bool.not_true, Bool.false_eq_true, if_false] at hcb
      refine ⟨rfl, ?_⟩
      cases hf : (holdingsProps b.properties pl).filter
          (fun p => p.color_group == prop.color_group) with
      | nil => rw [hf] at hcb; simp at hcb
      | cons q qs =>
          rw [hf] at hcb
          refine ⟨q.houses, qs.map Property.houses, ?_, ?_⟩
          · simp [groupHouseCounts, hf]
          · simpa using hcb

theorem C1_amended_witness :
    playerC1.owns_color_group "brown" boardC1.properties = true ∧
    ∃ h t, groupHouseCounts boardC1 playerC1 "brown" = h :: t ∧
      natListMax h t - natListMin h t ≤ 1 := by
  have h := C1_amended boardC1 3 playerC1 balticAveC1 (by decide) (by decide)
  simpa using h

/-! ## Claim C2: rent schedule monotonicity and definedness -/

/-- Reading Railroad's catalog entry. -/
def readingRailroad : Property :=
  ⟨"Reading Railroad", 5, 200, [25], "railroad", .railroad, 100, 0, 0⟩

/-- C2 fails on the code: for a railroad (single-entry rent schedule) the
source's `current_rent` indexes `rent[houses]` at development level 1, out
of range (a Python `IndexError`, here `none`). -/
theorem C2_counterexample :
    (5, readingRailroad) ∈ mkBoard.properties ∧
    Property.current_rent { readingRailroad with houses := 1 } = none := by
  decide

/-- C2 amended: for every street property of the catalog, `current_rent`
is defined at every development level 0–5 and monotonically non-decreasing
in the level; railroads and utilities are only defined at level 0 (their
schedules have a single entry). -/
theorem C2_amended :
    (∀ pp ∈ mkBoard.properties, pp.2.property_type = PropertyType.street →
      ∀ l2, l2 < 6 → ∀ l1, l1 ≤ l2 →
        (Property.current_rent { pp.2 with houses := l1 }).isSome = true ∧
        (Property.current_rent { pp.2 with houses := l2 }).isSome = true ∧
        (Property.current_rent { pp.2 with houses := l1 }).getD 0 ≤
          (Property.current_rent { pp.2 with houses := l2 }).getD 0) ∧
    (∀ pp ∈ mkBoard.properties,
      (Property.current_rent { pp.2 with houses := 0 }).isSome = true) := by
  decide

/-- The catalog entry for Baltic Avenue (development level 0). -/
def balticCatalog : Property :=
  ⟨"Baltic Avenue", 3, 60, [4, 20, 60, 180, 320, 450], "brown", .street, 30, 50, 0⟩

theorem C2_amended_witness :
    (Property.current_rent { balticCatalog with houses := 2 }).getD 0 ≤
      (Property.current_rent { balticCatalog with houses := 5 }).getD 0 := by
  have h := C2_amended.1 (3, balticCatalog) (by decide) (by decide)
    5 (by decide) 2 (by decide)
  simpa using h.2.2

/-! ## Claim C3: global house accounting -/

/-- Houses standing on the board: a hotel (level 5) counts as zero. -/
def boardHouses (props : List (Nat × Property)) : Int :=
  (props.map (fun pp => if pp.2.houses = 5 then 0 else (pp.2.houses : Int))).sum

/-- The book value of the invariant: houses on the board plus the shared
pool. -/
def houseBooks (b : MonopolyBoard) : Int :=
  boardHouses b.properties + b.houses_remaining

theorem boardHouses_listUpdate (pos : Nat) (old new : Property) :
    ∀ l : List (Nat × Property), listLookup pos l = some old →
      boardHouses (listUpdate pos new l) +
        (if old.houses = 5 then 0 else (old.houses : Int)) =
      boardHouses l + (if new.houses = 5 then 0 else (new.houses : Int)) := by
  intro l
  induction l with
  | nil => intro h; simp [listLookup] at h
  | cons hd tl ih =>
      obtain ⟨k, v⟩ := hd
      intro h
      by_cases hk : k = pos
      · subst hk
        simp [listLookup] at h
        subst h
        simp [listUpdate, boardHouses]
        ring
      · simp [listLookup, hk] at h
        have := ih h
        simp [listUpdate, hk, boardHouses] at this ⊢
        omega

/-- C3: the initial board satisfies `houses on board + pool = 32`, and both
`build_house` and `build_hotel` preserve the sum whether they succeed or
fail (a hotel build returns its 4 houses to the pool), so the sum is 32 in
every state reachable by any sequence of builds within one game. -/
theorem C3_house_accounting :
    houseBooks mkBoard = 32 ∧
    (∀ (b : MonopolyBoard) (pos : Nat) (pl : Player),
      houseBooks (build_house b pos pl).1 = houseBooks b) ∧
    (∀ (b : MonopolyBoard) (pos : Nat) (pl : Player),
      houseBooks (build_hotel b pos pl).1 = houseBooks b) := by
  refine ⟨by decide, ?_, ?_⟩
  · intro b pos pl
    unfold build_house
    cases hlk : listLookup pos b.properties with
    | none => rfl
    | some prop =>
        simp only
        by_cases hcb : can_build_houses b prop.color_group pl
        · simp only [hcb, Bool.not_true, Bool.false_eq_true, if_false]
          by_cases h4 : 4 ≤ prop.houses
          · simp [h4]
          · simp only [h4, if_false]
            by_cases hhr : b.houses_remaining ≤ 0
            · simp [hhr]
            · simp only [hhr, if_false]
              unfold Player.pay
              by_cases hpay : prop.house_cost ≤ pl.money
              · simp only [hpay, if_true]
                have hupd := boardHouses_listUpdate pos prop
                  { prop with houses := prop.houses + 1 } b.properties hlk
                simp only [houseBooks]
                have h5 : prop.houses ≠ 5 := by omega
                have h5' : prop.houses + 1 ≠ 5 := by omega
                simp only [h5, h5', if_false] at hupd
                push_cast at hupd ⊢
                omega
              · simp [hpay]
        · simp [hcb]
  · intro b pos pl
    unfold build_hotel
    cases hlk : listLookup pos b.properties with
    | none => rfl
    | some prop =>
        simp only
        by_cases h4 : prop.houses ≠ 4
        · simp [h4]
        · simp only [h4, if_false]
          push_neg at h4
          by_cases hhr : b.hotels_remaining ≤ 0
          · simp [hhr]
          · simp only [hhr, if_false]
            unfold Player.pay
            by_cases hpay : prop.house_cost ≤ pl.money
            · simp only [hpay, if_true]
              have hupd := boardHouses_listUpdate pos prop
                { prop with houses := 5 } b.properties hlk
              simp only [houseBooks]
              have h5 : prop.houses ≠ 5 := by omega
              simp only [h5, if_false, if_pos rfl] at hupd
              rw [h4] at hupd
              push_cast at hupd ⊢
              omega
            · simp [hpay]

/-! ## Claim C4: `build_hotel` contract and pool non-negativity -/

/-- C4: `build_hotel` succeeds exactly when the property has 4 houses, the
hotel pool is positive and the player can pay; success sets the hotel
level, returns 4 houses to the pool and takes 1 hotel; failure changes
nothing; both build operations keep both pools non-negative, which start
at 32 and 12. -/
theorem C4_build_hotel (b : MonopolyBoard) (pos : Nat) (pl : Player)
    (prop : Property) (hlk : listLookup pos b.properties = some prop) :
    ((build_hotel b pos pl).2.2 = true ↔
      (prop.houses = 4 ∧ 0 < b.hotels_remaining ∧ prop.house_cost ≤ pl.money)) ∧
    ((build_hotel b pos pl).2.2 = true →
      (build_hotel b pos pl).1.houses_remaining = b.houses_remaining + 4 ∧
      (build_hotel b pos pl).1.hotels_remaining = b.hotels_remaining - 1 ∧
      listLookup pos (build_hotel b pos pl).1.properties =
        some { prop with houses := 5 } ∧
      (build_hotel b pos pl).2.1.money = pl.money - prop.house_cost) ∧
    ((build_hotel b pos pl).2.2 = false →
      (build_hotel b pos pl).1 = b ∧ (build_hotel b pos pl).2.1 = pl) ∧
    (0 ≤ b.houses_remaining → 0 ≤ (build_hotel b pos pl).1.houses_remaining) ∧
    (0 ≤ b.hotels_remaining → 0 ≤ (build_hotel b pos pl).1.hotels_remaining) ∧
    (∀ (b' : MonopolyBoard) (pos' : Nat) (pl' : Player),
      0 ≤ b'.houses_remaining → 0 ≤ (build_house b' pos' pl').1.houses_remaining) ∧
    (∀ (b' : MonopolyBoard) (pos' : Nat) (pl' : Player),
      0 ≤ b'.hotels_remaining → 0 ≤ (build_house b' pos' pl').1.hotels_remaining) ∧
    mkBoard.houses_remaining = 32 ∧ mkBoard.hotels_remaining = 12 := by
  have hhouse : ∀ (b' : MonopolyBoard) (pos' : Nat) (pl' : Player),
      (0 ≤ b'.houses_remaining → 0 ≤ (build_house b' pos' pl').1.houses_remaining) ∧
      (0 ≤ b'.hotels_remaining → 0 ≤ (build_house b' pos' pl').1.hotels_remaining) := by
    intro b' pos' pl'
    unfold build_house
    cases hlk' : listLookup pos' b'.properties with
    | none => exact ⟨fun h => h, fun h => h⟩
    | some prop' =>
        simp only
        by_cases hcb : can_build_houses b' prop'.color_group pl'
        · simp only [hcb, Bool.not_true, Bool.false_eq_true, if_false]
          by_cases h4 : 4 ≤ prop'.houses
          · simp [h4]
          · simp only [h4, if_false]
            by_cases hhr : b'.houses_remaining ≤ 0
            · simp [hhr]
            · simp only [hhr, if_false]
              unfold Player.pay
              by_cases hpay : prop'.house_cost ≤ pl'.money
              · simp only [hpay, if_true]
                constructor
                · intro _; simp; omega
                · intro h; simpa using h
              · simp [hpay]
        · simp [hcb]
  by_cases h4 : prop.houses = 4 <;> by_cases hhr : b.hotels_remaining ≤ 0 <;>
    by_cases hpay : prop.house_cost ≤ pl.money <;>
    simp only [build_hotel, hlk, Player.pay, h4, hhr, hpay, ne_eq,
      not_true_eq_false, not_false_eq_true, if_true, if_false, ite_true, ite_false] <;>
    refine ⟨?_, ?_, ?_, ?_, ?_, fun b' pos' pl' => (hhouse b' pos' pl').1,
      fun b' pos' pl' => (hhouse b' pos' pl').2, by decide, by decide⟩ <;>
    simp_all [listLookup_listUpdate_self] <;> omega

/-- A board with Park Place carrying 4 houses, owned setup for the hotel
witness. -/
def parkPlace4 : Property :=
  ⟨"Park Place", 37, 350, [35, 175, 500, 1100, 1300, 1500], "dark_blue", .street, 175, 200, 4⟩

def boardC4 : MonopolyBoard :=
  { mkBoard with properties := listUpdate 37 parkPlace4 initialCatalog }

def playerC4 : Player :=
  { mkPlayer "H" .aggressive [] with money := 300, properties := [37, 39] }

theorem C4_build_hotel_witness :
    (build_hotel boardC4 37 playerC4).2.2 = true ∧
    (build_hotel boardC4 37 playerC4).1.houses_remaining = 36 ∧
    (build_hotel boardC4 37 playerC4).1.hotels_remaining = 11 ∧
    (build_hotel boardC4 37 playerC4).2.1.money = 100 := by
  have h := C4_build_hotel boardC4 37 playerC4 parkPlace4 (by decide)
  have hok : (build_hotel boardC4 37 playerC4).2.2 = true :=
    h.1.mpr ⟨by decide, by decide, by decide⟩
  have he := h.2.1 hok
  exact ⟨hok, by rw [he.1]; decide, by rw [he.2.1]; decide,
    by rw [he.2.2.2]; decide⟩

/-! ## Claim C5: `buy_property` contract -/

/-- C5: a purchase never succeeds on an owned position; failure (owned
position, no property there, or unaffordable price) leaves board and buyer
unchanged; success debits exactly the listed price, records the buyer as
owner and appends the position to the buyer's holdings without touching
the catalog; non-negative cash is preserved. -/
theorem C5_buy_property (b : MonopolyBoard) (pos : Nat) (pid : Nat) (pl : Player) :
    (is_property_owned b pos = true → (buy_property b pos pid pl).2.2 = false) ∧
    ((buy_property b pos pid pl).2.2 = false →
      (buy_property b pos pid pl).1 = b ∧ (buy_property b pos pid pl).2.1 = pl) ∧
    (∀ prop, listLookup pos b.properties = some prop →
      (buy_property b pos pid pl).2.2 = true →
      (buy_property b pos pid pl).2.1.money = pl.money - prop.price ∧
      get_property_owner (buy_property b pos pid pl).1 pos = some pid ∧
      (buy_property b pos pid pl).2.1.properties = pl.properties ++ [pos] ∧
      (buy_property b pos pid pl).1.properties = b.properties) ∧
    (0 ≤ pl.money → 0 ≤ (buy_property b pos pid pl).2.1.money) := by
  by_cases howned : is_property_owned b pos
  · have hred : buy_property b pos pid pl = (b, pl, false) := by
      unfold buy_property get_property_at_position
      cases hlk : listLookup pos b.properties with
      | none => rfl
      | some prop => simp [howned]
    rw [hred]
    exact ⟨fun _ => rfl, fun _ => ⟨rfl, rfl⟩,
      fun prop hp hfalse => by simp at hfalse, fun h => h⟩
  · cases hlk : listLookup pos b.properties with
    | none =>
        have hred : buy_property b pos pid pl = (b, pl, false) := by
          unfold buy_property get_property_at_position
          rw [hlk]
        rw [hred]
        refine ⟨fun _ => rfl, fun _ => ⟨rfl, rfl⟩, fun prop hp => ?_, fun h => h⟩
        cases hp
    | some prop =>
        by_cases hpay : prop.price ≤ pl.money
        · have hred : buy_property b pos pid pl =
              ({ b with property_owners := listUpdate pos pid b.property_owners },
               { pl with money := pl.money - prop.price,
                         properties := pl.properties ++ [pos] }, true) := by
            unfold buy_property get_property_at_position Player.pay
            rw [hlk]
            simp [howned, hpay]
          rw [hred]
          refine ⟨fun hc => absurd hc howned, fun hc => by simp at hc,
            fun prop' hp _ => ?_, fun _ => ?_⟩
          · cases hp
            exact ⟨rfl, listLookup_listUpdate_self pos pid b.property_owners, rfl, rfl⟩
          · show (0 : Int) ≤ pl.money - prop.price
            omega
        · have hred : buy_property b pos pid pl = (b, pl, false) := by
            unfold buy_property get_property_at_position Player.pay
            rw [hlk]
            simp [howned, hpay]
          rw [hred]
          exact ⟨fun _ => rfl, fun _ => ⟨rfl, rfl⟩,
            fun prop' hp hfalse => by simp at hfalse, fun h => h⟩

def playerC5 : Player := mkPlayer "B" .conservative []

theorem C5_buy_property_witness :
    (buy_property mkBoard 39 0 playerC5).2.2 = true ∧
    (buy_property mkBoard 39 0 playerC5).2.1.money = 1100 ∧
    get_property_owner (buy_property mkBoard 39 0 playerC5).1 39 = some 0 ∧
    (buy_property mkBoard 39 0 playerC5).2.1.properties = [39] ∧
    0 ≤ (buy_property mkBoard 39 0 playerC5).2.1.money := by
  have h := C5_buy_property mkBoard 39 0 playerC5
  have hok : (buy_property mkBoard 39 0 playerC5).2.2 = true := by decide
  have he := h.2.2.1 ⟨"Boardwalk", 39, 400, [50, 200, 600, 1400, 1700, 2000],
    "dark_blue", .street, 200, 200, 0⟩ (by decide) hok
  exact ⟨hok, by rw [he.1]; decide, he.2.1, by rw [he.2.2.1]; decide,
    h.2.2.2 (by decide)⟩

/-! ## Claim C9: tax payment failure is silent -/

theorem get?_set_self (a : α) :
    ∀ (l : List α) (n : Nat), n < l.length → (l.set n a).get? n = some a := by
  intro l
  induction l with
  | nil => intro n h; simp at h
  | cons hd tl ih =>
      intro n h
      cases n with
      | zero => rfl
      | succ m =>
          simp only [List.set, List.get?]
          exact ih m (by simpa using h)

theorem get?_set_other (a : α) :
    ∀ (l : List α) (n m : Nat), n ≠ m → (l.set n a).get? m = l.get? m := by
  intro l
  induction l with
  | nil => intro n m _; simp
  | cons hd tl ih =>
      intro n m hnm
      cases n with
      | zero =>
          cases m with
          | zero => exact absurd rfl hnm
          | succ m' => rfl
      | succ n' =>
          cases m with
          | zero => rfl
          | succ m' => exact ih n' m' (by omega)

/-- C9: landing on Income Tax (4) short of 200, or Luxury Tax (38) short
of 100, changes nothing at all — in particular neither the cash nor the
bankruptcy flag — while a rent payment the player cannot afford marks the
payer bankrupt in `handle_property_landing`. -/
theorem C9_tax_failure_silent (g : MonopolyGame) (rng : RNG) (i : Nat) :
    ((getPlayerD g i).money < 200 → handle_special_spaces g rng i 4 = (g, rng)) ∧
    ((getPlayerD g i).money < 100 → handle_special_spaces g rng i 38 = (g, rng)) ∧
    (∀ pos prop j,
      get_property_at_position g.board pos = some prop →
      is_property_owned g.board pos = true →
      get_property_owner g.board pos = some j →
      j ≠ i → (getPlayerD g j).is_bankrupt = false →
      (getPlayerD g i).money <
        (calculate_rent (getPlayerD g j) prop g.board.properties rng).1 →
      (handle_property_landing g rng i pos).1 =
        setPlayer g i { getPlayerD g i with is_bankrupt := true }) := by
  refine ⟨?_, ?_, ?_⟩
  · intro hm
    have hpay : ¬((200 : Int) ≤ (getPlayerD g i).money) := by omega
    simp [handle_special_spaces, Player.pay, hpay]
  · intro hm
    have hpay : ¬((100 : Int) ≤ (getPlayerD g i).money) := by omega
    simp [handle_special_spaces, Player.pay, hpay]
  · intro pos prop j hlk howned hown hji hjb hrent
    cases hcr : calculate_rent (getPlayerD g j) prop g.board.properties rng with
    | mk rent rng2 =>
        rw [hcr] at hrent
        have hpay : ¬(rent ≤ (getPlayerD g i).money) := by
          simpa using hrent
        simp [handle_property_landing, hlk, howned, hown, hji, hjb, hcr,
          Player.pay, hpay]

def taxGame : MonopolyGame :=
  { board := mkBoard,
    players := [{ mkPlayer "T" .conservative [] with money := 50 }],
    max_turns := 10 }

def steadyRNG : RNG := ⟨fun _ => 1, 0, fun _ => 1, 0, fun _ => 1, 0, fun _ => 7, 0⟩

theorem C9_tax_failure_silent_witness :
    handle_special_spaces taxGame steadyRNG 0 4 = (taxGame, steadyRNG) ∧
    handle_special_spaces taxGame steadyRNG 0 38 = (taxGame, steadyRNG) := by
  have h := C9_tax_failure_silent taxGame steadyRNG 0
  exact ⟨h.1 (by decide), h.2.1 (by decide)⟩

/-! ## Claim C10: the pay-each-player chance card -/

theorem payAllGo_length (amount : Int) (i : Nat) :
    ∀ (l : List Player) (j0 : Nat) (m : Int),
      (payAllGo amount i m l j0).1.length = l.length := by
  intro l
  induction l with
  | nil => intro j0 m; rfl
  | cons q rest ih =>
      intro j0 m
      unfold payAllGo
      by_cases he : j0 ≠ i ∧ q.is_bankrupt = false
      · rw [if_pos he]
        by_cases hm : amount ≤ m
        · rw [if_pos hm]
          show (payAllGo amount i (m - amount) rest (j0 + 1)).1.length + 1 =
            rest.length + 1
          rw [ih]
        · rw [if_neg hm]
      · rw [if_neg he]
        show (payAllGo amount i m rest (j0 + 1)).1.length + 1 = rest.length + 1
        rw [ih]

theorem payAllGo_flags (amount : Int) (i : Nat) :
    ∀ (l : List Player) (j0 : Nat) (m : Int) (t : Nat),
      ((payAllGo amount i m l j0).1.get? t).map Player.is_bankrupt =
        (l.get? t).map Player.is_bankrupt := by
  intro l
  induction l with
  | nil => intro j0 m t; rfl
  | cons q rest ih =>
      intro j0 m t
      unfold payAllGo
      by_cases he : j0 ≠ i ∧ q.is_bankrupt = false
      · rw [if_pos he]
        by_cases hm : amount ≤ m
        · rw [if_pos hm]
          cases t with
          | zero => rfl
          | succ t' => exact ih (j0 + 1) (m - amount) t'
        · rw [if_neg hm]
      · rw [if_neg he]
        cases t with
        | zero => rfl
        | succ t' => exact ih (j0 + 1) m t'

theorem payAllGo_entries (amount : Int) (i : Nat) :
    ∀ (l : List Player) (j0 : Nat) (m : Int) (t : Nat) (q : Player),
      l.get? t = some q →
      (payAllGo amount i m l j0).1.get? t = some q ∨
      (j0 + t ≠ i ∧ q.is_bankrupt = false ∧
        (payAllGo amount i m l j0).1.get? t = some (q.receive amount)) := by
  intro l
  induction l with
  | nil => intro j0 m t q h; simp at h
  | cons p rest ih =>
      intro j0 m t q hq
      unfold payAllGo
      by_cases he : j0 ≠ i ∧ p.is_bankrupt = false
      · rw [if_pos he]
        by_cases hm : amount ≤ m
        · rw [if_pos hm]
          cases t with
          | zero =>
              cases Option.some.inj hq
              right
              exact ⟨he.1, he.2, rfl⟩
          | succ t' =>
              rcases ih (j0 + 1) (m - amount) t' q hq with h | ⟨hne, hnb, hpaid⟩
              · exact Or.inl h
              · exact Or.inr ⟨by omega, hnb, hpaid⟩
        · rw [if_neg hm]
          exact Or.inl hq
      · rw [if_neg he]
        cases t with
        | zero =>
            cases Option.some.inj hq
            exact Or.inl rfl
        | succ t' =>
            rcases ih (j0 + 1) m t' q hq with h | ⟨hne, hnb, hpaid⟩
            · exact Or.inl h
            · exact Or.inr ⟨by omega, hnb, hpaid⟩

theorem payAllGo_money (amount : Int) (i : Nat) :
    ∀ (l : List Player) (j0 : Nat) (m : Int),
      ∃ k : Nat, (payAllGo amount i m l j0).2 = m - amount * k := by
  intro l
  induction l with
  | nil => intro j0 m; exact ⟨0, by simp [payAllGo]⟩
  | cons q rest ih =>
      intro j0 m
      unfold payAllGo
      by_cases he : j0 ≠ i ∧ q.is_bankrupt = false
      · rw [if_pos he]
        by_cases hm : amount ≤ m
        · rw [if_pos hm]
          obtain ⟨k, hk⟩ := ih (j0 + 1) (m - amount)
          refine ⟨k + 1, ?_⟩
          show (payAllGo amount i (m - amount) rest (j0 + 1)).2 = m - amount * (k + 1)
          rw [hk]
          ring
        · rw [if_neg hm]
          exact ⟨0, by simp⟩
      · rw [if_neg he]
        obtain ⟨k, hk⟩ := ih (j0 + 1) m
        exact ⟨k, hk⟩

theorem payAllGo_stop (amount : Int) (i : Nat) (hamount : 0 < amount) :
    ∀ (l : List Player) (j0 : Nat) (m : Int) (t : Nat) (q : Player),
      l.get? t = some q → j0 + t ≠ i → q.is_bankrupt = false →
      (payAllGo amount i m l j0).1.get? t = some q →
      (payAllGo amount i m l j0).2 < amount ∧
      (∀ t' q', l.get? t' = some q' → t < t' →
        (payAllGo amount i m l j0).1.get? t' = some q') := by
  intro l
  induction l with
  | nil => intro j0 m t q h; simp at h
  | cons p rest ih =>
      intro j0 m t q hq hne hnb
      unfold payAllGo
      by_cases he : j0 ≠ i ∧ p.is_bankrupt = false
      · rw [if_pos he]
        by_cases hm : amount ≤ m
        · rw [if_pos hm]
          cases t with
          | zero =>
              cases Option.some.inj hq
              intro hres
              have hq' := Option.some.inj hres
              have hmoney : p.money + amount = p.money := congrArg Player.money hq'
              omega
          | succ t' =>
              intro hres
              have key := ih (j0 + 1) (m - amount) t' q hq (by omega) hnb hres
              refine ⟨key.1, ?_⟩
              intro t2 q' hq' ht2
              cases t2 with
              | zero => omega
              | succ t2' => exact key.2 t2' q' hq' (by omega)
        · rw [if_neg hm]
          intro _
          refine ⟨by omega, ?_⟩
          intro t2 q' hq' _
          exact hq'
      · rw [if_neg he]
        cases t with
        | zero =>
            cases Option.some.inj hq
            exact absurd ⟨hne, hnb⟩ he
        | succ t' =>
            intro hres
            have key := ih (j0 + 1) m t' q hq (by omega) hnb hres
            refine ⟨key.1, ?_⟩
            intro t2 q' hq' ht2
            cases t2 with
            | zero => omega
            | succ t2' => exact key.2 t2' q' hq' (by omega)

/-- C10: drawing the `Pay each player $50` chance card (deck index 2) runs
`pay_all_players` with amount 50, which walks the roster in order, skips
the drawing player and bankrupt players, debits 50 per recipient, stops at
the first payment the remaining balance cannot cover (everyone later gets
nothing), keeps all earlier payments, and never sets anyone's bankruptcy
flag — in particular not the drawing player's. -/
theorem C10_pay_all_players (g : MonopolyGame) (i : Nat) (p : Player)
    (hp : g.players.get? i = some p) :
    (∀ rng : RNG, rng.choice rng.choiceIdx % 4 = 2 →
      draw_chance g rng i =
        (pay_all_players g i 50, { rng with choiceIdx := rng.choiceIdx + 1 })) ∧
    (pay_all_players g i 50).players.length = g.players.length ∧
    (∀ j, (((pay_all_players g i 50).players.get? j).map Player.is_bankrupt) =
      ((g.players.get? j).map Player.is_bankrupt)) ∧
    (∀ j q, g.players.get? j = some q → j ≠ i →
      (q.is_bankrupt = false →
        (pay_all_players g i 50).players.get? j = some (q.receive 50) ∨
        (pay_all_players g i 50).players.get? j = some q) ∧
      (q.is_bankrupt = true →
        (pay_all_players g i 50).players.get? j = some q)) ∧
    (∃ k : Nat, (pay_all_players g i 50).players.get? i =
      some { p with money := p.money - 50 * k }) ∧
    (∀ j q, g.players.get? j = some q → j ≠ i → q.is_bankrupt = false →
      (pay_all_players g i 50).players.get? j = some q →
      (∀ pm, (pay_all_players g i 50).players.get? i = some pm → pm.money < 50) ∧
      (∀ j' q', g.players.get? j' = some q' → j < j' → j' ≠ i →
        (pay_all_players g i 50).players.get? j' = some q')) := by
  have hi : i < g.players.length := by
    by_contra h
    push_neg at h
    rw [List.get?_eq_none.mpr h] at hp
    cases hp
  have hm0 : (getPlayerD g i).money = p.money := by
    unfold getPlayerD
    rw [hp]
    rfl
  set r := payAllGo 50 i (getPlayerD g i).money g.players 0 with hr
  have hpi : r.1.get? i = some p := by
    rcases payAllGo_entries 50 i g.players 0 (getPlayerD g i).money i p hp
      with h | ⟨hne, _, _⟩
    · exact h
    · omega
  have hlen : r.1.length = g.players.length :=
    payAllGo_length 50 i g.players 0 (getPlayerD g i).money
  have hplayers : (pay_all_players g i 50).players =
      r.1.set i { p with money := r.2 } := by
    show (r.1.set i { getPlayerD { g with players := r.1 } i with money := r.2 }) =
      r.1.set i { p with money := r.2 }
    have : getPlayerD { g with players := r.1 } i = p := by
      unfold getPlayerD
      show (r.1.get? i).getD defaultPlayer = p
      rw [hpi]
      rfl
    rw [this]
  have hgetp : (pay_all_players g i 50).players.get? i =
      some { p with money := r.2 } := by
    rw [hplayers]
    exact get?_set_self _ r.1 i (by omega)
  have hgetne : ∀ j, j ≠ i →
      (pay_all_players g i 50).players.get? j = r.1.get? j := by
    intro j hj
    rw [hplayers]
    exact get?_set_other _ r.1 i j (fun h => hj h.symm)
  refine ⟨?_, ?_, ?_, ?_, ?_, ?_⟩
  · intro rng hc2
    unfold draw_chance RNG.nextChoice
    simp only
    rw [hc2]
  · rw [hplayers, List.length_set, hlen]
  · intro j
    by_cases hj : j = i
    · subst hj
      rw [hgetp, hp]
      rfl
    · rw [hgetne j hj]
      exact payAllGo_flags 50 i g.players 0 (getPlayerD g i).money j
  · intro j q hq hj
    constructor
    · intro hnb
      rw [hgetne j hj]
      rcases payAllGo_entries 50 i g.players 0 (getPlayerD g i).money j q hq
        with h | ⟨_, _, hpaid⟩
      · exact Or.inr h
      · exact Or.inl hpaid
    · intro hb
      rw [hgetne j hj]
      rcases payAllGo_entries 50 i g.players 0 (getPlayerD g i).money j q hq
        with h | ⟨_, hnb, _⟩
      · exact h
      · rw [hb] at hnb
        cases hnb
  · obtain ⟨k, hk⟩ := payAllGo_money 50 i g.players 0 (getPlayerD g i).money
    refine ⟨k, ?_⟩
    rw [hgetp]
    rw [← hr] at hk
    rw [hk, hm0]
  · intro j q hq hj hnb hunpaid
    rw [hgetne j hj] at hunpaid
    have key := payAllGo_stop 50 i (by omega) g.players 0 (getPlayerD g i).money
      j q hq (by omega) hnb hunpaid
    constructor
    · intro pm hpm
      rw [hgetp] at hpm
      cases Option.some.inj hpm
      show r.2 < 50
      rw [← hr] at key
      exact key.1
    · intro j' q' hq' hjj' hj'
      rw [hgetne j' hj']
      rw [← hr] at key
      exact key.2 j' q' hq' hjj'

def p0W : Player := { mkPlayer "payer" .conservative [] with money := 70 }

def p1W : Player := mkPlayer "one" .conservative []

def p2W : Player := mkPlayer "two" .conservative []

def gW10 : MonopolyGame :=
  { board := mkBoard, players := [p0W, p1W, p2W], max_turns := 10 }

theorem C10_pay_all_players_witness :
    ((pay_all_players gW10 0 50).players.get? 0).map Player.is_bankrupt =
      some false ∧
    ({ p0W with money := 20 } : Player).money < 50 := by
  have h := C10_pay_all_players gW10 0 p0W (by decide)
  constructor
  · rw [h.2.2.1 0]
    decide
  · exact (h.2.2.2.2.2 2 p2W (by decide) (by decide) (by decide) (by decide)).1
      { p0W with money := 20 } (by decide)

/-! ## Claim C8: jail handling for a broke player rolling non-doubles -/

theorem next_player_players (g : MonopolyGame) :
    (next_player g).players = g.players := by
  simp only [next_player]
  repeat' split
  all_goals rfl

/-- When the turn reaches a live player, `play_turn` runs the factored
turn body on that roster entry. -/
theorem play_turn_eq_body (g : MonopolyGame) (rng : RNG) (p : Player)
    (hover : g.game_over = false)
    (hp : g.players.get? g.current_player_index = some p)
    (hnb : p.is_bankrupt = false) :
    play_turn g rng = play_turn_body g rng p := by
  unfold play_turn
  rw [hover, hp]
  simp [hnb]

/-- C8: a jailed player holding no card, rolling non-doubles, with less
than the 50-unit fee: the turn mutates only the stuck-turn counter — no
movement, no cash change, still jailed — for as long as the incremented
counter stays below 3; when it reaches 3 the forced fee payment fails and
the player is marked bankrupt (so a jailed player with 0 cash, no card and
non-doubles rolls goes bankrupt on the 3rd such consecutive turn). -/
theorem C8_jail_progression (g : MonopolyGame) (rng : RNG) (p : Player)
    (hover : g.game_over = false)
    (hp : g.players.get? g.current_player_index = some p)
    (hnb : p.is_bankrupt = false)
    (hjail : p.in_jail = true)
    (hcards : p.get_out_of_jail_cards = 0)
    (hdice : rng.dice rng.diceIdx ≠ rng.dice (rng.diceIdx + 1))
    (hpoor : p.money < 50) :
    ∃ p', (play_turn g rng).1.players.get? g.current_player_index = some p' ∧
      p'.position = p.position ∧
      p'.money = p.money ∧
      p'.in_jail = true ∧
      p'.jail_turns = p.jail_turns + 1 ∧
      (p.jail_turns + 1 < 3 → p'.is_bankrupt = false) ∧
      (3 ≤ p.jail_turns + 1 → p'.is_bankrupt = true) := by
  have hi : g.current_player_index < g.players.length := by
    by_contra hcon
    push_neg at hcon
    rw [List.get?_eq_none.mpr hcon] at hp
    cases hp
  have h50 : ¬((50 : Int) ≤ p.money) := by omega
  have hc0 : ¬(0 < p.get_out_of_jail_cards) := by omega
  by_cases h3 : 3 ≤ p.jail_turns + 1
  · refine ⟨{ p with jail_turns := p.jail_turns + 1, is_bankrupt := true },
      ?_, rfl, rfl, hjail, rfl, fun hlt => absurd h3 (by omega), fun _ => rfl⟩
    have hred : (play_turn g rng).1 = next_player (setPlayer g g.current_player_index
        { p with jail_turns := p.jail_turns + 1, is_bankrupt := true }) := by
      rw [play_turn_eq_body g rng p hover hp hnb]
      simp [play_turn_body, RNG.nextDie, hjail, hcards, hdice, h50, hc0, h3]
    rw [hred, next_player_players]
    exact get?_set_self _ g.players _ hi
  · refine ⟨{ p with jail_turns := p.jail_turns + 1 },
      ?_, rfl, rfl, hjail, rfl, fun _ => hnb, fun hge => absurd hge h3⟩
    have hred : (play_turn g rng).1 = next_player (setPlayer g g.current_player_index
        { p with jail_turns := p.jail_turns + 1 }) := by
      rw [play_turn_eq_body g rng p hover hp hnb]
      simp [play_turn_body, RNG.nextDie, hjail, hcards, hdice, h50, hc0, h3]
    rw [hred, next_player_players]
    exact get?_set_self _ g.players _ hi

/-- A jailed, penniless, cardless player on their 3rd stuck turn. -/
def jp3 : Player :=
  { mkPlayer "J" .conservative [] with
      money := 0, position := 10, in_jail := true, jail_turns := 2 }

def gJ3 : MonopolyGame :=
  { board := mkBoard, players := [jp3, mkPlayer "R" .conservative []],
    max_turns := 100 }

/-- Dice stream alternating 1, 2: every roll is non-doubles. -/
def rngJ3 : RNG := ⟨fun n => n % 2 + 1, 0, fun _ => 1, 0, fun _ => 1, 0, fun _ => 7, 0⟩

theorem C8_jail_progression_witness :
    ((play_turn gJ3 rngJ3).1.players.get? 0).map Player.is_bankrupt = some true ∧
    ((play_turn gJ3 rngJ3).1.players.get? 0).map Player.position = some 10 ∧
    ((play_turn gJ3 rngJ3).1.players.get? 0).map Player.jail_turns = some 3 := by
  obtain ⟨p', hp', hpos, hmoney, hjl, hjt, hfst, hbk⟩ :=
    C8_jail_progression gJ3 rngJ3 jp3 (by decide) (by decide) (by decide)
      (by decide) (by decide) (by decide) (by decide)
  have hidx : gJ3.current_player_index = 0 := rfl
  rw [hidx] at hp'
  refine ⟨?_, ?_, ?_⟩
  · rw [hp']
    show some p'.is_bankrupt = some true
    rw [hbk (by decide)]
  · rw [hp']
    show some p'.position = some 10
    rw [hpos]
    rfl
  · rw [hp']
    show some p'.jail_turns = some 3
    rw [hjt]
    rfl

/-! ## Claim C7: winner selection -/

theorem pyMaxGo_spec (f : Player → Int) :
    ∀ (l : List Player) (best : Player),
      f best ≤ f (pyMaxGo f best l) ∧
      (∀ q ∈ l, f q ≤ f (pyMaxGo f best l)) ∧
      (pyMaxGo f best l = best ∨
        ∃ j q, l.get? j = some q ∧ pyMaxGo f best l = q ∧ f best < f q ∧
          (∀ k q', k < j → l.get? k = some q' → f q' < f q)) := by
  intro l
  induction l with
  | nil => intro best; exact ⟨le_refl _, by simp, Or.inl rfl⟩
  | cons p rest ih =>
      intro best
      by_cases hc : f best < f p
      · have hred : pyMaxGo f best (p :: rest) = pyMaxGo f p rest := by
          simp [pyMaxGo, hc]
        obtain ⟨h1, h2, h3⟩ := ih p
        rw [hred]
        refine ⟨le_of_lt (lt_of_lt_of_le hc h1), ?_, ?_⟩
        · intro q hq
          rcases List.mem_cons.mp hq with rfl | hq'
          · exact h1
          · exact h2 q hq'
        · rcases h3 with heq | ⟨j, q, hj, heq, hlt, hprev⟩
          · exact Or.inr ⟨0, p, rfl, heq, hc, fun k q' hk _ => absurd hk (by omega)⟩
          · refine Or.inr ⟨j + 1, q, hj, heq, lt_trans hc hlt, ?_⟩
            intro k q' hk hkq
            cases k with
            | zero =>
                cases Option.some.inj hkq
                exact hlt
            | succ k' => exact hprev k' q' (by omega) hkq
      · have hred : pyMaxGo f best (p :: rest) = pyMaxGo f best rest := by
          simp [pyMaxGo, hc]
        obtain ⟨h1, h2, h3⟩ := ih best
        rw [hred]
        refine ⟨h1, ?_, ?_⟩
        · intro q hq
          rcases List.mem_cons.mp hq with rfl | hq'
          · exact le_trans (not_lt.mp hc) h1
          · exact h2 q hq'
        · rcases h3 with heq | ⟨j, q, hj, heq, hlt, hprev⟩
          · exact Or.inl heq
          · refine Or.inr ⟨j + 1, q, hj, heq, hlt, ?_⟩
            intro k q' hk hkq
            cases k with
            | zero =>
                cases Option.some.inj hkq
                exact lt_of_le_of_lt (not_lt.mp hc) hlt
            | succ k' => exact hprev k' q' (by omega) hkq

/-- Python's `max(players, key=f)` returns the earliest element realizing
the maximal key. -/
theorem pythonMax_spec (f : Player → Int) (l : List Player) (hne : l ≠ []) :
    ∃ w, pythonMax f l = some w ∧
      ∃ j, l.get? j = some w ∧
        (∀ k q, l.get? k = some q → f q ≤ f w) ∧
        (∀ k q, k < j → l.get? k = some q → f q < f w) := by
  cases l with
  | nil => cases hne rfl
  | cons p rest =>
      obtain ⟨h1, h2, h3⟩ := pyMaxGo_spec f rest p
      refine ⟨pyMaxGo f p rest, rfl, ?_⟩
      have hglobal : ∀ k q, (p :: rest).get? k = some q →
          f q ≤ f (pyMaxGo f p rest) := by
        intro k q hkq
        cases k with
        | zero =>
            cases Option.some.inj hkq
            exact h1
        | succ k' =>
            exact h2 q (List.get?_mem hkq)
      rcases h3 with heq | ⟨j, q, hj, heq, hlt, hprev⟩
      · refine ⟨0, by rw [heq]; rfl, hglobal, fun k q hk _ => absurd hk (by omega)⟩
      · refine ⟨j + 1, by rw [heq]; exact hj, hglobal, ?_⟩
        intro k q' hk hkq
        rw [heq]
        cases k with
        | zero =>
            cases Option.some.inj hkq
            exact hlt
        | succ k' => exact hprev k' q' (by omega) hkq

/-- C7: at a turn boundary (`next_player`) a sole non-bankrupt survivor is
installed as the winner with the game over; when instead at least two
players are still active and the (possibly just incremented) round counter
reaches the cap, the winner is the earliest player maximizing net worth
(cash plus listed prices of holdings); and once the game is over,
`playGameFuel` returns the state — hence the winner — unchanged, so
`play_game` reports exactly that winner. -/
theorem C7_winner_selection (g : MonopolyGame) :
    (∀ p : Player, g.players.filter (fun q => !q.is_bankrupt) = [p] →
      (next_player g).game_over = true ∧ (next_player g).winner = some p) ∧
    (2 ≤ (g.players.filter (fun q => !q.is_bankrupt)).length →
      g.max_turns ≤ (if (g.current_player_index + 1) % g.players.length = 0
        then g.turn_count + 1 else g.turn_count) →
      (next_player g).game_over = true ∧
      ∃ w j, (next_player g).winner = some w ∧ g.players.get? j = some w ∧
        (∀ k q, g.players.get? k = some q →
          networth g.board.properties q ≤ networth g.board.properties w) ∧
        (∀ k q, k < j → g.players.get? k = some q →
          networth g.board.properties q < networth g.board.properties w)) ∧
    (∀ (g' : MonopolyGame) (fuel : Nat) (rng : RNG), g'.game_over = true →
      playGameFuel fuel g' rng = (g', rng)) := by
  refine ⟨?_, ?_, ?_⟩
  · intro p hfilter
    simp [next_player, hfilter]
  · intro htwo hcap
    have hne : g.players ≠ [] := by
      intro hnil
      rw [hnil] at htwo
      simp at htwo
    have hgt : ¬((g.players.filter (fun q => !q.is_bankrupt)).length ≤ 1) := by
      omega
    obtain ⟨w, hw, j, hj, hmax, hfirst⟩ :=
      pythonMax_spec (networth g.board.properties) g.players hne
    simp only [next_player, hgt, if_false, if_pos hcap]
    exact ⟨trivial, w, j, by rw [hw], hj, hmax, hfirst⟩
  · intro g' fuel rng hov
    cases fuel with
    | zero => rfl
    | succ n => simp [playGameFuel, hov]

/-! ## Claim C6: termination of `play_game` -/

/-- The loop-control fields of a game state: round counter, cap, roster
pointer, terminal flag and roster size.  The body of a turn (everything a
turn does before its single final `next_player` call) leaves all of them
unchanged. -/
def frameOf (g : MonopolyGame) : Nat × Nat × Nat × Bool × Nat :=
  (g.turn_count, g.max_turns, g.current_player_index, g.game_over,
    g.players.length)

theorem frame_setPlayer (g : MonopolyGame) (i : Nat) (p : Player) :
    frameOf (setPlayer g i p) = frameOf g := by
  simp [frameOf, setPlayer]

theorem frame_pay_all (g : MonopolyGame) (i : Nat) (a : Int) :
    frameOf (pay_all_players g i a) = frameOf g := by
  unfold pay_all_players
  rw [frame_setPlayer]
  simp [frameOf, payAllGo_length]

theorem frame_chest (g : MonopolyGame) (rng : RNG) (i : Nat) :
    frameOf (draw_community_chest g rng i).1 = frameOf g := by
  unfold draw_community_chest RNG.nextChoice
  dsimp only
  split <;> apply frame_setPlayer

theorem frame_chance (g : MonopolyGame) (rng : RNG) (i : Nat) :
    frameOf (draw_chance g rng i).1 = frameOf g := by
  unfold draw_chance RNG.nextChoice
  dsimp only
  split
  · apply frame_setPlayer
  · apply frame_setPlayer
  · apply frame_pay_all
  · apply frame_setPlayer

theorem frame_special (g : MonopolyGame) (rng : RNG) (i : Nat) (pos : Nat) :
    frameOf (handle_special_spaces g rng i pos).1 = frameOf g := by
  unfold handle_special_spaces
  dsimp only
  split_ifs <;>
    first
      | rfl
      | apply frame_setPlayer
      | apply frame_chest
      | apply frame_chance

theorem frame_landing (g : MonopolyGame) (rng : RNG) (i : Nat) (pos : Nat) :
    frameOf (handle_property_landing g rng i pos).1 = frameOf g := by
  unfold handle_property_landing
  dsimp only
  repeat' split
  all_goals
    first
      | (split_ifs <;> simp [frameOf, setPlayer])
      | simp [frameOf, setPlayer]

theorem frame_devLoop (i : Nat) :
    ∀ (fuel : Nat) (g : MonopolyGame) (rng : RNG),
      frameOf (devLoop i fuel g rng).1 = frameOf g := by
  intro fuel
  induction fuel with
  | zero => intro g rng; rfl
  | succ n ih =>
      intro g rng
      unfold devLoop
      dsimp only
      repeat' split
      all_goals
        first
          | rfl
          | (rw [ih]; simp [frameOf, setPlayer])
          | simp [frameOf, setPlayer]

theorem frame_dev (g : MonopolyGame) (rng : RNG) (i : Nat) :
    frameOf (handle_development_phase g rng i).1 = frameOf g := by
  unfold handle_development_phase
  split
  · rfl
  · apply frame_devLoop

theorem frame_movePhaseCore (g : MonopolyGame) (rng : RNG) (i : Nat) :
    frameOf (movePhaseCore g rng i).1 = frameOf g := by
  unfold movePhaseCore
  dsimp only
  split_ifs <;> simp only [frame_special, frame_landing, frame_dev]

theorem movePhase_shape (g : MonopolyGame) (rng : RNG) (i : Nat)
    (player : Player) (total : Nat) :
    ∃ gb rb, movePhase g rng i player total = (next_player gb, rb) ∧
      frameOf gb = frameOf g := by
  refine ⟨(movePhaseCore (setPlayer g i (player.move total).1) rng i).1,
    (movePhaseCore (setPlayer g i (player.move total).1) rng i).2, rfl, ?_⟩
  rw [frame_movePhaseCore, frame_setPlayer]

theorem play_turn_body_shape (g : MonopolyGame) (rng : RNG) (player : Player) :
    ∃ gb rb, play_turn_body g rng player = (next_player gb, rb) ∧
      frameOf gb = frameOf g := by
  unfold play_turn_body
  simp only [RNG.nextDie]
  by_cases hj : player.in_jail = true
  · simp only [hj, if_true]
    by_cases hc : 0 < player.get_out_of_jail_cards
    · simp only [hc, if_true]
      exact movePhase_shape _ _ _ _ _
    · simp only [hc, if_false]
      by_cases hd : rng.dice rng.diceIdx = rng.dice (rng.diceIdx + 1)
      · simp only [hd, if_true]
        exact movePhase_shape _ _ _ _ _
      · simp only [hd, if_false]
        by_cases hm : (50 : Int) ≤ player.money
        · simp only [hm, if_true]
          exact movePhase_shape _ _ _ _ _
        · simp only [hm, if_false]
          by_cases h3 : 3 ≤ player.jail_turns + 1
          · simp only [h3, if_true, hm, if_false]
            exact ⟨_, _, rfl, frame_setPlayer _ _ _⟩
          · simp only [h3, if_false]
            exact ⟨_, _, rfl, frame_setPlayer _ _ _⟩
  · simp only [hj, if_false]
    exact movePhase_shape _ _ _ _ _

theorem play_turn_shape (g : MonopolyGame) (rng : RNG)
    (hover : g.game_over = false)
    (hsome : (g.players.get? g.current_player_index).isSome = true) :
    ∃ gb rb, play_turn g rng = (next_player gb, rb) ∧ frameOf gb = frameOf g := by
  obtain ⟨p, hp⟩ := Option.isSome_iff_exists.mp hsome
  by_cases hnb : p.is_bankrupt = true
  · refine ⟨g, rng, ?_, rfl⟩
    unfold play_turn
    rw [hover, hp]
    simp [hnb]
  · rw [play_turn_eq_body g rng p hover hp (by simpa using hnb)]
    exact play_turn_body_shape g rng p

/-- The loop variant: remaining full rounds times roster size plus the
distance to the next wrap. -/
def gameMeasure (g : MonopolyGame) : Nat :=
  (g.max_turns + 1 - g.turn_count) * g.players.length +
    (g.players.length - g.current_player_index)

theorem next_player_index (g : MonopolyGame) :
    (next_player g).current_player_index =
      (g.current_player_index + 1) % g.players.length := by
  simp only [next_player]
  repeat' split
  all_goals first | rfl | omega | simp_all

theorem next_player_turn_count (g : MonopolyGame) :
    (next_player g).turn_count =
      (if (g.current_player_index + 1) % g.players.length = 0
        then g.turn_count + 1 else g.turn_count) := by
  simp only [next_player]
  repeat' split
  all_goals first | rfl | omega | simp_all

theorem next_player_max_turns (g : MonopolyGame) :
    (next_player g).max_turns = g.max_turns := by
  simp only [next_player]
  repeat' split
  all_goals rfl

/-- `next_player` only leaves the game running when the (possibly just
incremented) round counter is still below the cap. -/
theorem next_player_cap (g : MonopolyGame) :
    (next_player g).game_over = false →
      (next_player g).turn_count < g.max_turns := by
  simp only [next_player]
  repeat' split
  all_goals intro h
  all_goals dsimp only at h ⊢
  all_goals first | omega | simp at h

theorem frame_eq_fields {g' g : MonopolyGame} (h : frameOf g' = frameOf g) :
    g'.turn_count = g.turn_count ∧ g'.max_turns = g.max_turns ∧
    g'.current_player_index = g.current_player_index ∧
    g'.game_over = g.game_over ∧ g'.players.length = g.players.length := by
  unfold frameOf at h
  exact ⟨congrArg (fun x => x.1) h, congrArg (fun x => x.2.1) h,
    congrArg (fun x => x.2.2.1) h, congrArg (fun x => x.2.2.2.1) h,
    congrArg (fun x => x.2.2.2.2) h⟩

/-- One live turn preserves the loop invariants and either ends the game
or strictly decreases the variant; it also never lifts the round counter
by more than one and respects the cap. -/
theorem play_turn_step (g : MonopolyGame) (rng : RNG)
    (hn : 0 < g.players.length)
    (hidx : g.current_player_index < g.players.length)
    (hcap : g.turn_count ≤ g.max_turns)
    (hover : g.game_over = false) :
    (0 < (play_turn g rng).1.players.length ∧
      (play_turn g rng).1.current_player_index <
        (play_turn g rng).1.players.length ∧
      ((play_turn g rng).1.game_over = false →
        (play_turn g rng).1.turn_count ≤ (play_turn g rng).1.max_turns)) ∧
    ((play_turn g rng).1.game_over = true ∨
      gameMeasure (play_turn g rng).1 < gameMeasure g) ∧
    (play_turn g rng).1.max_turns = g.max_turns ∧
    (play_turn g rng).1.turn_count ≤ g.turn_count + 1 ∧
    ((play_turn g rng).1.game_over = false →
      (play_turn g rng).1.turn_count < g.max_turns) := by
  have hsome : (g.players.get? g.current_player_index).isSome = true := by
    rw [List.get?_eq_get hidx]
    rfl
  obtain ⟨gb, rb, hshape, hframe⟩ := play_turn_shape g rng hover hsome
  obtain ⟨ht, hM, hI, hO, hL⟩ := frame_eq_fields hframe
  have h1 : (play_turn g rng).1 = next_player gb := by rw [hshape]
  rw [h1]
  have hnpl := next_player_players gb
  have hnidx := next_player_index gb
  have hnt := next_player_turn_count gb
  have hnM := next_player_max_turns gb
  have hncap := next_player_cap gb
  have hM' : (next_player gb).max_turns = g.max_turns := by rw [hnM, hM]
  have hlen' : (next_player gb).players.length = g.players.length := by
    rw [hnpl, hL]
  have htc : (next_player gb).turn_count =
      (if (g.current_player_index + 1) % g.players.length = 0
        then g.turn_count + 1 else g.turn_count) := by
    rw [hnt, hI, hL, ht]
  have hic : (next_player gb).current_player_index =
      (g.current_player_index + 1) % g.players.length := by
    rw [hnidx, hI, hL]
  have hcap' : (next_player gb).game_over = false →
      (next_player gb).turn_count < g.max_turns := by
    intro h
    rw [← hM]
    exact hncap h
  refine ⟨⟨by rw [hlen']; exact hn, ?_, ?_⟩, ?_, hM', ?_, hcap'⟩
  · rw [hic, hlen']
    exact Nat.mod_lt _ hn
  · intro h
    rw [hM']
    exact le_of_lt (hcap' h)
  · by_cases hov : (next_player gb).game_over = true
    · exact Or.inl hov
    · right
      rw [Bool.not_eq_true] at hov
      unfold gameMeasure
      rw [htc, hic, hM', hlen']
      by_cases hw : (g.current_player_index + 1) % g.players.length = 0
      · rw [if_pos hw, hw]
        have hb : g.max_turns + 1 - (g.turn_count + 1) = g.max_turns - g.turn_count := by
          omega
        have ha : g.max_turns + 1 - g.turn_count = (g.max_turns - g.turn_count) + 1 := by
          omega
        rw [hb, ha, Nat.succ_mul]
        omega
      · rw [if_neg hw]
        have hlt : g.current_player_index + 1 < g.players.length := by
          rcases Nat.lt_or_ge (g.current_player_index + 1) g.players.length with h | h
          · exact h
          · have : g.current_player_index + 1 = g.players.length := by omega
            rw [this, Nat.mod_self] at hw
            exact absurd rfl hw
        rw [Nat.mod_eq_of_lt hlt]
        omega
  · rw [htc]
    split_ifs <;> omega

/-- `playGameFuel` preserves any property preserved by live turns. -/
theorem playGameFuel_preserve (P : MonopolyGame → Prop)
    (hstep : ∀ g rng, P g → g.game_over = false → P (play_turn g rng).1) :
    ∀ (fuel : Nat) (g : MonopolyGame) (rng : RNG), P g →
      P (playGameFuel fuel g rng).1 := by
  intro fuel
  induction fuel with
  | zero => intro g rng hP; exact hP
  | succ n ih =>
      intro g rng hP
      unfold playGameFuel
      by_cases hov : g.game_over = true
      · simp only [hov, if_true]
        exact hP
      · rw [Bool.not_eq_true] at hov
        simp only [hov, Bool.false_eq_true, if_false]
        cases hpt : play_turn g rng with
        | mk g' rng' =>
            dsimp only
            have hP' := hstep g rng hP hov
            rw [hpt] at hP'
            exact ih g' rng' hP'

/-- Enough fuel forces the while-loop of `play_game` to a terminal state. -/
theorem playGameFuel_over :
    ∀ (fuel : Nat) (g : MonopolyGame) (rng : RNG),
      0 < g.players.length → g.current_player_index < g.players.length →
      (g.game_over = false → g.turn_count ≤ g.max_turns) →
      (g.game_over = true ∨ gameMeasure g < fuel) →
      (playGameFuel fuel g rng).1.game_over = true := by
  intro fuel
  induction fuel with
  | zero =>
      intro g rng _ _ _ h
      rcases h with h | h
      · exact h
      · omega
  | succ n ih =>
      intro g rng hn hidx hcap h
      by_cases hov : g.game_over = true
      · unfold playGameFuel
        simp only [hov, if_true]
      · rw [Bool.not_eq_true] at hov
        have hstep := play_turn_step g rng hn hidx (hcap hov) hov
        unfold playGameFuel
        simp only [hov, Bool.false_eq_true, if_false]
        cases hpt : play_turn g rng with
        | mk g' rng' =>
            dsimp only
            rw [hpt] at hstep
            dsimp only at hstep
            apply ih g' rng' hstep.1.1 hstep.1.2.1 hstep.1.2.2
            rcases hstep.2.1 with hov' | hm
            · exact Or.inl hov'
            · right
              rcases h with hcon | hlt
              · rw [hov] at hcon
                cases hcon
              · omega

/-- A finished game with a single player and a zero turn cap: the lone
player's first turn wraps the roster, lifting the round counter to 1, and
the sole-survivor check ends the game — with the counter strictly above
the configured cap of 0. -/
def gC6 : MonopolyGame := mkGame [("A", BuyingStrategy.conservative, [])] 0

/-- C6 fails on the code at the edge `max_turns = 0` with one player: the
game does terminate, but the final round counter is 1 > 0, exceeding the
configured bound. -/
theorem C6_counterexample :
    (playGameFuel 2 gC6 steadyRNG).1.game_over = true ∧
    gC6.max_turns < (playGameFuel 2 gC6 steadyRNG).1.turn_count := by
  decide

/-- C6 amended: for every roster with at least one player, `play_game`
terminates — within `(maxTurns + 1) * n + n` turns the loop has reached a
terminal state — and provided `maxTurns ≥ 1` the global round counter
never exceeds `maxTurns` at the end.  (With `maxTurns = 0` and a single
player the counter ends at 1, exceeding the bound.) -/
theorem C6_amended (configs : List (String × BuyingStrategy × List String))
    (mt : Nat) (rng : RNG) (hne : configs ≠ []) :
    (playGameFuel ((mt + 1) * configs.length + configs.length + 1)
      (mkGame configs mt) rng).1.game_over = true ∧
    (1 ≤ mt →
      (playGameFuel ((mt + 1) * configs.length + configs.length + 1)
        (mkGame configs mt) rng).1.turn_count ≤ mt) := by
  have hlen : (mkGame configs mt).players.length = configs.length := by
    simp [mkGame]
  have hn : 0 < configs.length := List.length_pos.mpr hne
  have hover0 : (mkGame configs mt).game_over = false := rfl
  have hidx0 : (mkGame configs mt).current_player_index = 0 := rfl
  have ht0 : (mkGame configs mt).turn_count = 0 := rfl
  have hmt0 : (mkGame configs mt).max_turns = mt := rfl
  have hterm : (playGameFuel ((mt + 1) * configs.length + configs.length + 1)
      (mkGame configs mt) rng).1.game_over = true := by
    apply playGameFuel_over
    · rw [hlen]
      exact hn
    · rw [hidx0, hlen]
      exact hn
    · intro _
      rw [ht0, hmt0]
      omega
    · right
      unfold gameMeasure
      rw [hlen, hidx0, ht0, hmt0]
      simp only [Nat.sub_zero]
      omega
  refine ⟨hterm, ?_⟩
  intro hmt
  have hstep : ∀ (g : MonopolyGame) (rng' : RNG),
      (0 < g.players.length ∧ g.current_player_index < g.players.length ∧
        g.max_turns = mt ∧
        (g.game_over = false → g.turn_count < g.max_turns) ∧
        (g.game_over = true → g.turn_count ≤ g.max_turns)) →
      g.game_over = false →
      (0 < (play_turn g rng').1.players.length ∧
        (play_turn g rng').1.current_player_index <
          (play_turn g rng').1.players.length ∧
        (play_turn g rng').1.max_turns = mt ∧
        ((play_turn g rng').1.game_over = false →
          (play_turn g rng').1.turn_count < (play_turn g rng').1.max_turns) ∧
        ((play_turn g rng').1.game_over = true →
          (play_turn g rng').1.turn_count ≤ (play_turn g rng').1.max_turns)) := by
    intro g rng' hP hov
    have hs := play_turn_step g rng' hP.1 hP.2.1
      (le_of_lt (hP.2.2.2.1 hov)) hov
    refine ⟨hs.1.1, hs.1.2.1, ?_, ?_, ?_⟩
    · rw [hs.2.2.1, hP.2.2.1]
    · intro hov'
      rw [hs.2.2.1]
      exact hs.2.2.2.2 hov'
    · intro hov'
      rw [hs.2.2.1]
      have h1 := hs.2.2.2.1
      have h2 := hP.2.2.2.1 hov
      omega
  have hfin := playGameFuel_preserve
    (fun g => 0 < g.players.length ∧ g.current_player_index < g.players.length ∧
      g.max_turns = mt ∧
      (g.game_over = false → g.turn_count < g.max_turns) ∧
      (g.game_over = true → g.turn_count ≤ g.max_turns))
    hstep ((mt + 1) * configs.length + configs.length + 1) (mkGame configs mt) rng
    ⟨by rw [hlen]; exact hn, by rw [hidx0, hlen]; exact hn, hmt0,
      by intro _; rw [ht0, hmt0]; omega,
      by intro hc; rw [hover0] at hc; cases hc⟩
  have h1 := hfin.2.2.2.2 hterm
  rw [hfin.2.2.1] at h1
  exact h1

theorem C6_amended_witness :
    (playGameFuel 4 (mkGame [("A", BuyingStrategy.conservative, [])] 1)
      steadyRNG).1.game_over = true ∧
    (playGameFuel 4 (mkGame [("A", BuyingStrategy.conservative, [])] 1)
      steadyRNG).1.turn_count ≤ 1 := by
  have h := C6_amended [("A", BuyingStrategy.conservative, [])] 1 steadyRNG
    (by decide)
  exact ⟨h.1, h.2 (by decide)⟩

def pA7 : Player := { mkPlayer "A" .conservative [] with is_bankrupt := true }

def pB7 : Player := mkPlayer "B" .conservative []

def gC7 : MonopolyGame := { board := mkBoard, players := [pA7, pB7], max_turns := 5 }

theorem C7_winner_selection_witness :
    (next_player gC7).game_over = true ∧ (next_player gC7).winner = some pB7 :=
  (C7_winner_selection gC7).1 pB7 (by decide)
